import Mathlib

/-!
Verification of the SoaresModules utility library.

The repository consists of three independent helpers in
`src/soaresmodules/soares_utils.py`:

* `download_and_extract_zip` (the Archive Fetcher),
* `ensure_paths` (the Path Validator / Provisioner),
* `install_deb_deps` (the Dependency Installer).

This file gives a shallow embedding of the three functions and proves, or
refutes, the behavioural claims made about them.  Effectful primitives
(filesystem, network, package manager) are modelled by explicit state
records and oracles; string manipulation is translated character by
character from the Python source.
-/

/-! ## Python string primitives

The Python code uses `str.strip`, `str.split`, `str.splitlines`,
`str.startswith` and `os.path.basename`.  We model them over `List Char`
(the `data` of a `String`) so that every definition evaluates by kernel
reduction.  `splitlines` is modelled as splitting on the LF character,
which matches Python for LF-separated text; every consumer below either
strips the pieces or treats a trailing empty piece identically to its
absence, so the model is faithful for the inputs the claims quantify
over. -/

/-- The whitespace class of Python `str.strip()` and of the regex class
used in `install_deb_deps` (space, tab, LF, CR, vertical tab, form
feed). -/
def pyIsSpace (c : Char) : Bool :=
  c = ' ' || c = '\t' || c = '\n' || c = '\r' ||
  c = Char.ofNat 0x0B || c = Char.ofNat 0x0C

/-- Python `str.strip()` on the character list. -/
def pyStripL (l : List Char) : List Char :=
  ((l.dropWhile pyIsSpace).reverse.dropWhile pyIsSpace).reverse

/-- Python `str.strip()`. -/
def pyStrip (s : String) : String := ⟨pyStripL s.data⟩

/-- Python `str.split(sep)` for a one-character separator: keeps empty
pieces, returns `[""]` on the empty string. -/
def splitOnChar (sep : Char) : List Char → List (List Char)
  | [] => [[]]
  | c :: rest =>
    match splitOnChar sep rest with
    | [] => [[]]
    | g :: gs => if c = sep then [] :: g :: gs else (c :: g) :: gs

/-- Python `str.splitlines()`, modelled as splitting on LF. -/
def pySplitlines (s : String) : List (List Char) := splitOnChar '\n' s.data

/-- Model of `os.path.basename`: everything after the last slash. -/
def basenameL (l : List Char) : List Char :=
  l.foldl (fun acc c => if c = '/' then [] else acc ++ [c]) []

/-- Model of `os.path.basename` on strings. -/
def basename (s : String) : String := ⟨basenameL s.data⟩

/-- Spec-side reading of the Archive Fetcher contract: the local filename
is the final path segment of the URL.  Stated independently of `basename`
as the last piece of the slash-separated split, for comparison with the
definition in the code. -/
def specFinalSegment (s : String) : String :=
  ⟨(splitOnChar '/' s.data).getLastD []⟩

/-! ## Archive Fetcher (`download_and_extract_zip`)

The world record models the destination directory (a set of file names),
the reachability of the remote resource, whether its bytes form a valid
ZIP archive, and the entry names the archive would extract to.  The
destination directory itself is created up front by the function
(`dest_folder.mkdir(parents=True, exist_ok=True)`), so the model keeps
only its contents. -/

structure World where
  /-- names of the files currently present in the destination folder -/
  files : List String
  /-- whether `urllib.request.urlretrieve` succeeds -/
  remoteOk : Bool
  /-- the downloaded bytes are a valid ZIP archive -/
  validZip : Bool
  /-- the file names `ZipFile.extractall` would write -/
  zipEntries : List String

inductive FetchErr where
  | network
  | badZip
  deriving DecidableEq, Repr

/-- Writing a file into the destination folder (set semantics on names). -/
def addFile (fs : List String) (n : String) : List String :=
  if n ∈ fs then fs else fs ++ [n]

/-- Model of `Path.unlink` and `os.remove` of one name. -/
def removeFile (fs : List String) (n : String) : List String :=
  fs.filter (fun m => m ≠ n)

/-- Shallow embedding of `download_and_extract_zip`.  Returns the final
world together with the exception that propagated, if any; an exception
leaves the world produced so far in place, exactly as in Python. -/
def download_and_extract_zip (w : World) (url : String)
    (unzip delete_zip : Bool) : World × Option FetchErr :=
  let name := basename url
  if ¬ w.remoteOk then
    (w, some .network)
  else
    let files₁ := addFile w.files name
    if unzip ∧ ¬ w.validZip then
      ({ w with files := files₁ }, some .badZip)
    else
      let files₂ := if unzip then w.zipEntries.foldl addFile files₁ else files₁
      let files₃ := if delete_zip then removeFile files₂ name else files₂
      ({ w with files := files₃ }, none)

/-! ## Path Validator (`ensure_paths`)

Paths are modelled as lists of components (`Path("a/b")` is `["a", "b"]`);
the filesystem is an association list from paths to entries, each entry a
directory or a regular file with `os.access` answers for read, write and
execute.  Two oracles model the host raising an unexpected exception
(e.g. `PermissionError`) inside `Path.mkdir` or `Path.touch`; the model
assumes a raising operation fails before mutating the filesystem.
`os.access` on a missing path answers `false`, as on POSIX.

The Python guards `if dirs_list:` / `if file_paths:` skip a `None` or
empty list; a loop over the empty list does the same, so the embedding
takes plain lists. -/

abbrev FsPath := List String

structure Perms where
  r : Bool
  w : Bool
  x : Bool
  deriving DecidableEq, Repr

inductive FsEntry where
  | dir (perms : Perms)
  | file (perms : Perms)
  deriving DecidableEq, Repr

structure FS where
  entries : List (FsPath × FsEntry)
  /-- when `some msg`, `Path.mkdir` on this path raises `msg` -/
  mkdirErr : FsPath → Option String
  /-- when `some msg`, `Path.touch` on this path raises `msg` -/
  touchErr : FsPath → Option String

/-- First-match lookup in the entry list. -/
def lookupA : List (FsPath × FsEntry) → FsPath → Option FsEntry
  | [], _ => none
  | (q, e) :: rest, p => if q = p then some e else lookupA rest p

def FS.lookup (fs : FS) (p : FsPath) : Option FsEntry := lookupA fs.entries p

/-- Model of `Path.exists()`. -/
def FS.existsP (fs : FS) (p : FsPath) : Bool := (fs.lookup p).isSome

def FsEntry.perm : FsEntry → Perms
  | .dir pm => pm
  | .file pm => pm

/-- Model of `os.access(p, os.R_OK)`. -/
def FS.accessR (fs : FS) (p : FsPath) : Bool :=
  match fs.lookup p with
  | some en => en.perm.r
  | none => false

/-- Model of `os.access(p, os.W_OK)`. -/
def FS.accessW (fs : FS) (p : FsPath) : Bool :=
  match fs.lookup p with
  | some en => en.perm.w
  | none => false

/-- Model of `os.access(p, os.X_OK)`. -/
def FS.accessX (fs : FS) (p : FsPath) : Bool :=
  match fs.lookup p with
  | some en => en.perm.x
  | none => false

/-- A directory freshly created by `Path.mkdir` (default mode `0o777`
masked by the usual umask): readable, writable, searchable. -/
def defaultDirPerms : Perms := ⟨true, true, true⟩

/-- A file freshly created by `Path.touch` (default mode `0o666` masked
by the umask): readable and writable, never executable. -/
def touchPerms : Perms := ⟨true, true, false⟩

/-- The nonempty prefixes of a path, shortest first: the chain of
directories `mkdir(parents=True)` walks. -/
def pathPrefixes (p : FsPath) : List FsPath :=
  (List.range p.length).map (fun i => p.take (i + 1))

/-- One step of `mkdir(parents=True, exist_ok=True)`: create the
directory if it is missing. -/
def addDirIfMissing (es : List (FsPath × FsEntry)) (q : FsPath) :
    List (FsPath × FsEntry) :=
  if (lookupA es q).isSome then es else (q, .dir defaultDirPerms) :: es

/-- Model of `p.mkdir(parents=True, exist_ok=True)`: may raise via the oracle,
otherwise creates every missing prefix of `p` as a directory. -/
def FS.mkdirParents (fs : FS) (p : FsPath) : Except String FS :=
  match fs.mkdirErr p with
  | some e => .error e
  | none => .ok { fs with entries := (pathPrefixes p).foldl addDirIfMissing fs.entries }

/-- Model of `p.touch()`: may raise via the oracle, otherwise creates `p` as an
empty (non-executable) file if it is missing. -/
def FS.touch (fs : FS) (p : FsPath) : Except String FS :=
  match fs.touchErr p with
  | some e => .error e
  | none =>
    .ok { fs with
          entries :=
            if (lookupA fs.entries p).isSome then fs.entries
            else (p, .file touchPerms) :: fs.entries }

/-- Model of `Path(f).parent`, with `Path("a").parent = Path(".")`. -/
def parentOf (p : FsPath) : FsPath :=
  if p.length ≤ 1 then ["."] else p.dropLast

/-- Rendering of a path in the error messages (`str(Path(...))`). -/
def pathStr (p : FsPath) : String := String.intercalate "/" p

def msgDirNotExist (d : FsPath) : String :=
  "Directory does not exist: " ++ pathStr d ++ ". Create it or set create_dir=True."

def msgDirNotReadable (d : FsPath) : String :=
  "Directory is not readable: " ++ pathStr d ++
    ". Set read permission: chmod +r \x27" ++ pathStr d ++ "\x27"

def msgDirNotWritable (d : FsPath) : String :=
  "Directory is not writable: " ++ pathStr d ++
    ". Set write permission: chmod +w \x27" ++ pathStr d ++ "\x27"

def msgDirError (d : FsPath) (e : String) : String :=
  "Error handling directory \x27" ++ pathStr d ++ "\x27: " ++ e

def msgParentNotExist (parent : FsPath) : String :=
  "Parent directory does not exist: " ++ pathStr parent ++
    ". Create it or set create_file=True."

def msgFileNotExist (f : FsPath) : String :=
  "File does not exist: " ++ pathStr f ++ ". Create it or set create_file=True."

def msgFileNotReadable (f : FsPath) : String :=
  "File is not readable: " ++ pathStr f ++
    ". Set read permission: chmod +r \x27" ++ pathStr f ++ "\x27"

def msgFileNotWritable (f : FsPath) : String :=
  "File is not writable: " ++ pathStr f ++
    ". Set write permission: chmod +w \x27" ++ pathStr f ++ "\x27"

def msgFileNotExecutable (f : FsPath) : String :=
  "File is not executable: " ++ pathStr f ++
    ". Set execute permission: chmod +x \x27" ++ pathStr f ++ "\x27"

def msgFileError (f : FsPath) (e : String) : String :=
  "Error handling file \x27" ++ pathStr f ++ "\x27: " ++ e

/-- The two independent directory permission checks, in source order. -/
def dirAccessFaults (fs : FS) (d : FsPath) : List String :=
  (if fs.accessR d then [] else [msgDirNotReadable d]) ++
  (if fs.accessW d then [] else [msgDirNotWritable d])

/-- The body of the directory loop of `ensure_paths`, inside the `try`:
an `Except.error` is an exception escaping the body. -/
def checkDirBody (fs : FS) (create_dir : Bool) (d : FsPath) :
    Except String (FS × List String) :=
  if fs.existsP d then
    .ok (fs, dirAccessFaults fs d)
  else if create_dir then
    match fs.mkdirParents d with
    | .error e => .error e
    | .ok fs' => .ok (fs', dirAccessFaults fs' d)
  else
    .ok (fs, [msgDirNotExist d])

/-- The directory loop body together with its `except` clause. -/
def dirStep (create_dir : Bool) (fs : FS) (d : FsPath) : FS × List String :=
  match checkDirBody fs create_dir d with
  | .ok r => r
  | .error e => (fs, [msgDirError d e])

/-- The directory loop of `ensure_paths`. -/
def checkDirs (create_dir : Bool) : FS → List FsPath → FS × List String
  | fs, [] => (fs, [])
  | fs, d :: rest =>
    let s₁ := dirStep create_dir fs d
    let s₂ := checkDirs create_dir s₁.1 rest
    (s₂.1, s₁.2 ++ s₂.2)

/-- The three independent file permission checks, in source order. -/
def fileAccessFaults (fs : FS) (f : FsPath) : List String :=
  (if fs.accessR f then [] else [msgFileNotReadable f]) ++
  (if fs.accessW f then [] else [msgFileNotWritable f]) ++
  (if fs.accessX f then [] else [msgFileNotExecutable f])

/-- Second half of the file loop body: the existence check on the file
itself, then the permission checks. -/
def checkFileBody₂ (fs : FS) (create_file : Bool) (f : FsPath) :
    Except String (FS × List String) :=
  if fs.existsP f then
    .ok (fs, fileAccessFaults fs f)
  else if create_file then
    match fs.touch f with
    | .error e => .error e
    | .ok fs' => .ok (fs', fileAccessFaults fs' f)
  else
    .ok (fs, [msgFileNotExist f])

/-- The body of the file loop of `ensure_paths`, inside the `try`. -/
def checkFileBody (fs : FS) (create_file : Bool) (f : FsPath) :
    Except String (FS × List String) :=
  let parent := parentOf f
  if fs.existsP parent then
    checkFileBody₂ fs create_file f
  else if create_file then
    match fs.mkdirParents parent with
    | .error e => .error e
    | .ok fs' => checkFileBody₂ fs' create_file f
  else
    .ok (fs, [msgParentNotExist parent])

/-- The file loop body together with its `except` clause. -/
def fileStep (create_file : Bool) (fs : FS) (f : FsPath) : FS × List String :=
  match checkFileBody fs create_file f with
  | .ok r => r
  | .error e => (fs, [msgFileError f e])

/-- The file loop of `ensure_paths`. -/
def checkFiles (create_file : Bool) : FS → List FsPath → FS × List String
  | fs, [] => (fs, [])
  | fs, f :: rest =>
    let s₁ := fileStep create_file fs f
    let s₂ := checkFiles create_file s₁.1 rest
    (s₂.1, s₁.2 ++ s₂.2)

/-- The `bool | str` return type of `ensure_paths`. -/
inductive PyRet where
  | bool (b : Bool)
  | str (s : String)
  deriving DecidableEq, Repr

/-- Model of `return False if not errors else "\n".join(errors)`. -/
def mkRet (errors : List String) : PyRet :=
  if errors = [] then .bool false else .str (String.intercalate "\n" errors)

/-- Shallow embedding of `ensure_paths`: returns the final filesystem
together with the Python return value. -/
def ensure_paths (fs : FS) (dirs_list file_paths : List FsPath)
    (create_dir create_file : Bool) : FS × PyRet :=
  let s₁ := checkDirs create_dir fs dirs_list
  let s₂ := checkFiles create_file s₁.1 file_paths
  (s₂.1, mkRet (s₁.2 ++ s₂.2))

/-- Per-entry fault lists of the directory loop, paired with the entry
that produced them, in processing order. -/
def dirFaultListsP (create_dir : Bool) : FS → List FsPath → List (FsPath × List String)
  | _, [] => []
  | fs, d :: rest =>
    let s₁ := dirStep create_dir fs d
    (d, s₁.2) :: dirFaultListsP create_dir s₁.1 rest

/-- Per-entry fault lists of the file loop, paired with the entry that
produced them, in processing order. -/
def fileFaultListsP (create_file : Bool) : FS → List FsPath → List (FsPath × List String)
  | _, [] => []
  | fs, f :: rest =>
    let s₁ := fileStep create_file fs f
    (f, s₁.2) :: fileFaultListsP create_file s₁.1 rest

/-! ## Dependency Installer (`install_deb_deps`)

The package manager is an oracle: the stdout of `apt-cache show pkg` and
of `apt-cache showpkg pkg` (the two probes run without `check=True`, so
they never raise), and the success of the two `check=True` invocations,
`sudo apt-get update` and the final `apt-get install`.  The dependency
file is passed as its text content. -/

/-- Try to match the regex `\s*\([^)]*\)` after the opening parenthesis:
consume up to and including the first closing parenthesis. -/
def matchParen : List Char → Option (List Char)
  | [] => none
  | c :: rest => if c = ')' then some rest else matchParen rest

/-- Try to match the regex `\s*\([^)]*\)` at the head of the list,
returning the remainder after the match. -/
def tryMatchVer : List Char → Option (List Char)
  | [] => none
  | c :: rest =>
    if pyIsSpace c then tryMatchVer rest
    else if c = '(' then matchParen rest
    else none

theorem matchParen_length {l l' : List Char} (h : matchParen l = some l') :
    l'.length < l.length := by
  induction l with
  | nil => simp [matchParen] at h
  | cons c rest ih =>
    simp only [matchParen] at h
    split at h
    · cases h; simp
    · exact Nat.lt_trans (ih h) (by simp)

theorem tryMatchVer_length {l l' : List Char} (h : tryMatchVer l = some l') :
    l'.length < l.length := by
  induction l with
  | nil => simp [tryMatchVer] at h
  | cons c rest ih =>
    simp only [tryMatchVer] at h
    split at h
    · exact Nat.lt_trans (ih h) (by simp)
    · split at h
      · exact Nat.lt_trans (matchParen_length h) (by simp)
      · cases h

/-- Fuel-indexed scan for `re.sub(r"\s*\([^)]*\)", "", line)`: delete
every match of the pattern, left to right.  Structural recursion on the
fuel keeps the definition kernel-reducible; `stripVerL` instantiates the
fuel with the list length, which `tryMatchVer_length` shows is always
enough. -/
def stripVerFuel : Nat → List Char → List Char
  | 0, l => l
  | _ + 1, [] => []
  | n + 1, c :: rest =>
    match tryMatchVer (c :: rest) with
    | some rest' => stripVerFuel n rest'
    | none => c :: stripVerFuel n rest

/-- Model of `re.sub(r"\s*\([^)]*\)", "", line)`. -/
def stripVerL (l : List Char) : List Char := stripVerFuel l.length l

instance instDecEqExcept {ε α : Type _} [DecidableEq ε] [DecidableEq α] :
    DecidableEq (Except ε α)
  | .ok a, .ok b =>
    if h : a = b then .isTrue (congrArg Except.ok h)
    else .isFalse (fun he => h (Except.ok.inj he))
  | .error a, .error b =>
    if h : a = b then .isTrue (congrArg Except.error h)
    else .isFalse (fun he => h (Except.error.inj he))
  | .ok _, .error _ => .isFalse (fun he => Except.noConfusion he)
  | .error _, .ok _ => .isFalse (fun he => Except.noConfusion he)

/-- Normalization of one (already stripped) specifier line:
`re.sub(r"\s*\([^)]*\)", "", ln).split("|", 1)[0].strip()`. -/
def normalizeSpec (ln : String) : String :=
  pyStrip ⟨(stripVerL ln.data).takeWhile (fun c => c ≠ '|')⟩

/-- The read-and-clean phase of `install_deb_deps`: split the file into
lines, strip each, drop blanks and `#` comments, normalize the rest. -/
def parsePkgs (content : String) : List String :=
  (((pySplitlines content).map (fun l => pyStripL l)).filter
      (fun l => l ≠ [] ∧ l.head? ≠ some '#')).map
    (fun l => normalizeSpec ⟨l⟩)

/-- The `Reverse Provides:` scan over the lines of `apt-cache showpkg`
output.  `Except.error ()` is the `IndexError` that `stripped.split()[0]`
raises on a whitespace-only indented line inside the block. -/
def parseProviderLines : List (List Char) → Bool → Except Unit (Option String)
  | [], _ => .ok none
  | line :: rest, inRev =>
    let stripped := pyStripL line
    if stripped = "Reverse Provides:".data then
      parseProviderLines rest true
    else if inRev then
      if line.head? ≠ some ' ' then .ok none
      else
        match stripped with
        | [] => .error ()
        | _ :: _ => .ok (some ⟨stripped.takeWhile (fun c => ¬ pyIsSpace c)⟩)
    else
      parseProviderLines rest inRev

/-- Parse the first provider out of `apt-cache showpkg` output. -/
def parseProvider (out : String) : Except Unit (Option String) :=
  parseProviderLines (pySplitlines out) false

structure AptEnv where
  /-- stdout of `apt-cache show pkg` (empty means not a real package) -/
  showOut : String → String
  /-- stdout of `apt-cache showpkg pkg` -/
  showpkgOut : String → String
  /-- whether `sudo apt-get update` exits successfully -/
  updateOk : Bool
  /-- whether `sudo apt-get install -y pkgs` exits successfully -/
  installOk : List String → Bool

/-- The resolution loop: keep a real package, else take the first
reverse provider, else warn and skip the line.  `Except.error ()`
propagates the `IndexError` of the provider scan. -/
def resolveAll (env : AptEnv) : List String → Except Unit (List String)
  | [] => .ok []
  | pkg :: rest =>
    if env.showOut pkg ≠ "" then
      (resolveAll env rest).map (fun t => pkg :: t)
    else
      match parseProvider (env.showpkgOut pkg) with
      | .error _ => .error ()
      | .ok (some provider) => (resolveAll env rest).map (fun t => provider :: t)
      | .ok none => resolveAll env rest

inductive AptFatal where
  | updateFailed
  | indexError
  | installFailed
  deriving DecidableEq, Repr

inductive AptOutcome where
  | noPackages
  | nothingToInstall
  | installed (pkgs : List String)
  deriving DecidableEq, Repr

/-- Shallow embedding of `install_deb_deps`, taking the dependency file
content as a string.  An `Except.error` is an exception propagating out
of the Python function (a `CalledProcessError` of the two `check=True`
commands, or the `IndexError` of the provider scan). -/
def install_deb_deps (env : AptEnv) (content : String) :
    Except AptFatal AptOutcome :=
  let pkgs := parsePkgs content
  if pkgs = [] then .ok .noPackages
  else if ¬ env.updateOk then .error .updateFailed
  else
    match resolveAll env pkgs with
    | .error _ => .error .indexError
    | .ok to_install =>
      if to_install = [] then .ok .nothingToInstall
      else if env.installOk to_install then .ok (.installed to_install)
      else .error .installFailed


/-- Concrete worlds used to witness the Archive Fetcher theorems. -/
def wBadZip : World :=
  { files := [], remoteOk := true, validZip := false, zipEntries := ["inner.txt"] }

def wGoodZip : World :=
  { files := [], remoteOk := true, validZip := true, zipEntries := ["inner.txt"] }

-- #### concrete instances used by witnesses and counterexamples are defined
-- #### further below in this definitions region

/-- Concrete package-manager environments for the Dependency Installer
claims.  `envAlt` makes the second alternate `b` directly installable
while the first alternate `a` resolves to nothing; `envIdx` returns a
`Reverse Provides:` block whose first indented line is whitespace-only;
`envUpd` fails the index refresh. -/
def envAlt : AptEnv :=
  { showOut := fun p => if p = "b" then "Package: b" else ""
    showpkgOut := fun _ => ""
    updateOk := true
    installOk := fun _ => true }

def envIdx : AptEnv :=
  { showOut := fun _ => ""
    showpkgOut := fun _ => "Reverse Provides:\n \nx"
    updateOk := true
    installOk := fun _ => true }

def envUpd : AptEnv :=
  { showOut := fun _ => ""
    showpkgOut := fun _ => ""
    updateOk := false
    installOk := fun _ => true }

/-- Concrete filesystems for the Path Validator claims.  `fsRoot` holds
only the working directory; `fsLocked` additionally makes `Path.mkdir`
raise a permission error on the path `locked`. -/
def fsRoot : FS :=
  { entries := [(["."], FsEntry.dir ⟨true, true, true⟩)]
    mkdirErr := fun _ => none
    touchErr := fun _ => none }

def fsLocked : FS :=
  { entries := [(["."], FsEntry.dir ⟨true, true, true⟩)]
    mkdirErr := fun p => if p = ["locked"] then some "Permission denied" else none
    touchErr := fun _ => none }

/-- Shape of the fault list one directory entry may contribute: either
the single catch-all message of the `except` clause, or a subsequence of
the three checks in source order. -/
def dirShape (pe : FsPath × List String) : Prop :=
  (∃ e, pe.2 = [msgDirError pe.1 e]) ∨
  List.Sublist pe.2
    [msgDirNotExist pe.1, msgDirNotReadable pe.1, msgDirNotWritable pe.1]

/-- Shape of the fault list one file entry may contribute: either the
single catch-all message of the `except` clause, or a subsequence of the
five checks in source order. -/
def fileShape (pe : FsPath × List String) : Prop :=
  (∃ e, pe.2 = [msgFileError pe.1 e]) ∨
  List.Sublist pe.2
    [msgParentNotExist (parentOf pe.1), msgFileNotExist pe.1,
     msgFileNotReadable pe.1, msgFileNotWritable pe.1, msgFileNotExecutable pe.1]

/-! ## Helper lemmas: Archive Fetcher -/

theorem mem_addFile_self (fs : List String) (n : String) : n ∈ addFile fs n := by
  unfold addFile
  split
  · assumption
  · simp

theorem mem_addFile {fs : List String} {m n : String} (h : n ∈ addFile fs m) :
    n = m ∨ n ∈ fs := by
  unfold addFile at h
  split at h
  · exact Or.inr h
  · rcases List.mem_append.mp h with h' | h'
    · exact Or.inr h'
    · simp at h'; exact Or.inl h'

theorem not_mem_removeFile (fs : List String) (n : String) : n ∉ removeFile fs n := by
  intro h
  simp [removeFile] at h

theorem mem_removeFile {fs : List String} {m n : String} (h : n ∈ removeFile fs m) :
    n ∈ fs ∧ n ≠ m := by
  simpa [removeFile] using h

/-- The split always has at least one piece. -/
theorem splitOnChar_exists_cons (sep : Char) (l : List Char) :
    ∃ g gs, splitOnChar sep l = g :: gs := by
  induction l with
  | nil => exact ⟨[], [], rfl⟩
  | cons c rest ih =>
    obtain ⟨g, gs, hg⟩ := ih
    by_cases h : c = sep
    · exact ⟨[], g :: gs, by simp [splitOnChar, hg, h]⟩
    · exact ⟨c :: g, gs, by simp [splitOnChar, hg, h]⟩

/-- If the list has no separator, the split is the single piece. -/
theorem splitOnChar_no_sep {sep : Char} {l : List Char} (h : sep ∉ l) :
    splitOnChar sep l = [l] := by
  induction l with
  | nil => rfl
  | cons c rest ih =>
    simp only [List.mem_cons, not_or] at h
    simp [splitOnChar, ih h.2, Ne.symm h.1]

/-- If the list contains the separator, the split has at least two
pieces. -/
theorem splitOnChar_mem_two {sep : Char} {l : List Char} (h : sep ∈ l) :
    ∃ g g' gs, splitOnChar sep l = g :: g' :: gs := by
  induction l with
  | nil => cases h
  | cons c rest ih =>
    obtain ⟨g, gs, hg⟩ := splitOnChar_exists_cons sep rest
    by_cases hc : c = sep
    · subst hc
      exact ⟨[], g, gs, by simp [splitOnChar, hg]⟩
    · have hr : sep ∈ rest := by
        rcases List.mem_cons.mp h with h' | h'
        · exact absurd h'.symm hc
        · exact h'
      obtain ⟨a, a', as, ha⟩ := ih hr
      exact ⟨c :: a, a', as, by simp [splitOnChar, ha, hc]⟩

/-- The fold of `basenameL` computes the last piece of the split when
there is a separator, and appends to the accumulator otherwise. -/
theorem basenameL_fold (l : List Char) : ∀ acc : List Char,
    l.foldl (fun acc c => if c = '/' then [] else acc ++ [c]) acc =
      if '/' ∈ l then (splitOnChar '/' l).getLastD [] else acc ++ l := by
  induction l with
  | nil => intro acc; simp
  | cons c rest ih =>
    intro acc
    obtain ⟨g, gs, hg⟩ := splitOnChar_exists_cons '/' rest
    by_cases hc : c = '/'
    · subst hc
      rw [List.foldl_cons, if_pos rfl, ih [], if_pos (List.mem_cons_self _ _)]
      have hsp : splitOnChar '/' ('/' :: rest) = [] :: g :: gs := by
        simp [splitOnChar, hg]
      rw [hsp]
      by_cases hr : '/' ∈ rest
      · rw [if_pos hr, hg]
        simp [List.getLastD_cons]
      · rw [if_neg hr]
        have h1 : splitOnChar '/' rest = [rest] := splitOnChar_no_sep hr
        rw [h1] at hg
        cases hg
        simp
    · rw [List.foldl_cons, if_neg hc, ih (acc ++ [c])]
      have hsp : splitOnChar '/' (c :: rest) = (c :: g) :: gs := by
        simp [splitOnChar, hg, hc]
      by_cases hr : '/' ∈ rest
      · have hmem : '/' ∈ c :: rest := List.mem_cons_of_mem c hr
        rw [if_pos hr, if_pos hmem, hsp, hg]
        obtain ⟨a, a', as, ha⟩ := splitOnChar_mem_two hr
        rw [ha] at hg
        cases hg
        simp [List.getLastD_cons]
      · have hmem : '/' ∉ c :: rest := by
          intro hin
          rcases List.mem_cons.mp hin with h' | h'
          · exact hc h'.symm
          · exact hr h'
        rw [if_neg hr, if_neg hmem]
        simp

/-- The function `basename` of the code agrees with the final-segment reading of the spec. -/
theorem basename_eq_specFinalSegment (s : String) :
    basename s = specFinalSegment s := by
  unfold basename specFinalSegment basenameL
  rw [basenameL_fold]
  by_cases h : '/' ∈ s.data
  · rw [if_pos h]
  · rw [if_neg h, splitOnChar_no_sep h]
    simp

/-- String append acts as list append on the underlying data. -/
theorem string_append_data (s t : String) : (s ++ t).data = s.data ++ t.data := by
  cases s
  cases t
  rfl


/-- For a URL ending in the literal suffix of the example in the spec, the
downloaded name is the final segment, whatever comes before. -/
theorem basename_append_segment (pre : String) :
    basename (pre ++ "/assets/data.zip") = "data.zip" := by
  show String.mk (basenameL (pre ++ "/assets/data.zip").data) = "data.zip"
  rw [string_append_data]
  unfold basenameL
  rw [List.foldl_append]
  rw [basenameL_fold, if_pos (by decide : '/' ∈ ("/assets/data.zip" : String).data)]
  decide

/-- Unfolding of the fetcher on a reachable URL whose bytes are not a
valid archive, with extraction requested. -/
theorem download_badZip {w : World} (url : String) (dz : Bool)
    (hro : w.remoteOk = true) (hvz : w.validZip = false) :
    download_and_extract_zip w url true dz =
      ({ w with files := addFile w.files (basename url) }, some FetchErr.badZip) := by
  simp [download_and_extract_zip, hro, hvz]

/-- Unfolding of the fetcher on a successful full run. -/
theorem download_ok_unzip_delete {w : World} (url : String)
    (hro : w.remoteOk = true) (hvz : w.validZip = true) :
    download_and_extract_zip w url true true =
      ({ w with files := removeFile (w.zipEntries.foldl addFile (addFile w.files (basename url))) (basename url) }, none) := by
  simp [download_and_extract_zip, hro, hvz]

/-- Unfolding of the fetcher with extraction disabled and deletion on. -/
theorem download_ok_nounzip_delete {w : World} (url : String)
    (hro : w.remoteOk = true) :
    download_and_extract_zip w url false true =
      ({ w with files := removeFile (addFile w.files (basename url)) (basename url) },
       none) := by
  simp [download_and_extract_zip, hro]

/-- Claim C7: in the Archive Fetcher, when unzip is requested and the
downloaded bytes are not a valid ZIP archive, the `BadZipFile` error
propagates to the caller and the downloaded archive file remains in the
destination directory even if `delete_zip` was requested, because
deletion happens only after extraction completes. -/
theorem C7_failed_extraction_keeps_archive :
    ∀ (w : World) (url : String) (dz : Bool),
      w.remoteOk = true → w.validZip = false →
      download_and_extract_zip w url true dz =
        ({ w with files := addFile w.files (basename url) }, some FetchErr.badZip) ∧
      basename url ∈ (download_and_extract_zip w url true dz).1.files := by
  intro w url dz hro hvz
  have h1 := download_badZip (w := w) url dz hro hvz
  refine ⟨h1, ?_⟩
  rw [h1]
  exact mem_addFile_self _ _

theorem C7_failed_extraction_keeps_archive_witness :
    download_and_extract_zip wBadZip "http://host/a.zip" true true =
      ({ wBadZip with
          files := addFile wBadZip.files (basename "http://host/a.zip") },
       some FetchErr.badZip) ∧
    basename "http://host/a.zip" ∈
      (download_and_extract_zip wBadZip "http://host/a.zip" true true).1.files :=
  C7_failed_extraction_keeps_archive wBadZip "http://host/a.zip" true rfl rfl

/-- Claim C9: the local filename of the downloaded archive is the final
path segment of the URL (`data.zip` for a URL ending in `/assets/data.zip`),
and after a successful download, extraction, and `delete_zip=True`, the
archive no longer exists in the destination directory. -/
theorem C9_basename_and_delete :
    (∀ s : String, basename s = specFinalSegment s) ∧
    (∀ pre : String, basename (pre ++ "/assets/data.zip") = "data.zip") ∧
    (∀ (w : World) (url : String), w.remoteOk = true → w.validZip = true →
      (download_and_extract_zip w url true true).2 = none ∧
      basename url ∉ (download_and_extract_zip w url true true).1.files) := by
  refine ⟨basename_eq_specFinalSegment, basename_append_segment, ?_⟩
  intro w url hro hvz
  have h1 := download_ok_unzip_delete (w := w) url hro hvz
  rw [h1]
  exact ⟨rfl, not_mem_removeFile _ _⟩

theorem C9_basename_and_delete_witness :
    (download_and_extract_zip wGoodZip "http://host/assets/data.zip" true true).2 = none ∧
    basename "http://host/assets/data.zip" ∉
      (download_and_extract_zip wGoodZip "http://host/assets/data.zip" true true).1.files :=
  C9_basename_and_delete.2.2 wGoodZip "http://host/assets/data.zip" rfl rfl

/-- Claim C10: deletion of the archive is conditioned only on the
`delete_zip` flag: with `unzip=False` and `delete_zip=True` the call
completes without error and leaves neither the archive nor any extracted
content in the destination directory (every remaining file was already
there). -/
theorem C10_delete_without_extraction :
    ∀ (w : World) (url : String), w.remoteOk = true →
      (download_and_extract_zip w url false true).2 = none ∧
      basename url ∉ (download_and_extract_zip w url false true).1.files ∧
      ∀ n ∈ (download_and_extract_zip w url false true).1.files, n ∈ w.files := by
  intro w url hro
  have h1 := download_ok_nounzip_delete (w := w) url hro
  rw [h1]
  refine ⟨rfl, not_mem_removeFile _ _, ?_⟩
  intro n hn
  obtain ⟨hn', hne⟩ := mem_removeFile hn
  rcases mem_addFile hn' with h | h
  · exact absurd h hne
  · exact h

theorem C10_delete_without_extraction_witness :
    (download_and_extract_zip wBadZip "http://host/a.zip" false true).2 = none ∧
    basename "http://host/a.zip" ∉
      (download_and_extract_zip wBadZip "http://host/a.zip" false true).1.files :=
  ⟨(C10_delete_without_extraction wBadZip "http://host/a.zip" rfl).1,
   (C10_delete_without_extraction wBadZip "http://host/a.zip" rfl).2.1⟩

/-! ## Helper lemmas: Dependency Installer -/

theorem string_mk_data (s : String) : String.mk s.data = s := by
  cases s
  rfl

/-- Without an opening parenthesis the version pattern cannot match. -/
theorem tryMatchVer_no_paren {l : List Char} (h : '(' ∉ l) :
    tryMatchVer l = none := by
  induction l with
  | nil => rfl
  | cons c rest ih =>
    simp only [List.mem_cons, not_or] at h
    unfold tryMatchVer
    by_cases hs : pyIsSpace c
    · simp [hs, ih h.2]
    · have hc : c ≠ '(' := fun hc => h.1 hc.symm
      simp [hs, hc]

/-- Without an opening parenthesis the substitution is the identity, for
any amount of fuel. -/
theorem stripVerFuel_no_paren :
    ∀ (n : Nat) (l : List Char), '(' ∉ l → stripVerFuel n l = l := by
  intro n
  induction n with
  | zero => intro l _; rfl
  | succ n ih =>
    intro l h
    cases l with
    | nil => rfl
    | cons c rest =>
      have hsub : '(' ∉ rest := fun hm => h (List.mem_cons_of_mem c hm)
      unfold stripVerFuel
      rw [tryMatchVer_no_paren h]
      rw [ih rest hsub]

/-- The function `takeWhile` swallows a prefix on which the predicate holds and stops
at the first failing element. -/
theorem takeWhile_append_stop {α : Type _} (p : α → Bool) (l₁ l₂ : List α) (a : α)
    (h₁ : ∀ c ∈ l₁, p c = true) (h₂ : p a = false) :
    (l₁ ++ a :: l₂).takeWhile p = l₁ := by
  induction l₁ with
  | nil => simp [List.takeWhile, h₂]
  | cons c rest ih =>
    have hc : p c = true := h₁ c (List.mem_cons_self _ _)
    simp only [List.cons_append, List.takeWhile, hc]
    rw [List.append_eq, ih (fun c' hc' => h₁ c' (List.mem_cons_of_mem c hc'))]

/-- Everything after the first `|` of a specifier line is discarded by
the normalization, provided no version parenthetical interferes. -/
theorem normalizeSpec_drops_alternates (s t : String)
    (hbar : '|' ∉ s.data) (hps : '(' ∉ s.data) (hpt : '(' ∉ t.data) :
    normalizeSpec (s ++ "|" ++ t) = pyStrip s := by
  have hdata : (s ++ "|" ++ t).data = s.data ++ '|' :: t.data := by
    rw [string_append_data, string_append_data]
    rw [show ("|" : String).data = ['|'] from by decide]
    simp
  have hnp : '(' ∉ (s ++ "|" ++ t).data := by
    rw [hdata]
    intro hm
    rcases List.mem_append.mp hm with h | h
    · exact hps h
    · rcases List.mem_cons.mp h with h | h
      · cases h
      · exact hpt h
  unfold normalizeSpec stripVerL
  rw [stripVerFuel_no_paren _ _ hnp, hdata]
  rw [takeWhile_append_stop _ s.data t.data '|'
        (fun c hc => by
          simp only [decide_eq_true_eq]
          exact fun h => hbar (h ▸ hc))
        (by simp)]

/-- An unresolvable candidate (not a real package, no provider) is
skipped: the rest of the list resolves as if the line were absent. -/
theorem resolveAll_skip {env : AptEnv} {c : String} (rest : List String)
    (h1 : env.showOut c = "") (h2 : parseProvider (env.showpkgOut c) = .ok none) :
    resolveAll env (c :: rest) = resolveAll env rest := by
  simp [resolveAll, h1, h2]

/-- A real package is kept verbatim. -/
theorem resolveAll_keep {env : AptEnv} {c : String} (rest : List String)
    (h1 : env.showOut c ≠ "") :
    resolveAll env (c :: rest) = (resolveAll env rest).map (fun t => c :: t) := by
  simp [resolveAll, h1]

/-- A virtual package is replaced by its first reverse provider. -/
theorem resolveAll_provider {env : AptEnv} {c pr : String} (rest : List String)
    (h1 : env.showOut c = "")
    (h2 : parseProvider (env.showpkgOut c) = .ok (some pr)) :
    resolveAll env (c :: rest) = (resolveAll env rest).map (fun t => pr :: t) := by
  simp [resolveAll, h1, h2]

/-- The only exception the resolution loop can raise is the `IndexError`
of the provider scan of some candidate. -/
theorem resolveAll_error {env : AptEnv} {pkgs : List String}
    (h : resolveAll env pkgs = .error ()) :
    ∃ p ∈ pkgs, env.showOut p = "" ∧ parseProvider (env.showpkgOut p) = .error () := by
  induction pkgs with
  | nil => cases h
  | cons c rest ih =>
    by_cases h1 : env.showOut c = ""
    · cases h2 : parseProvider (env.showpkgOut c) with
      | error u =>
        exact ⟨c, List.mem_cons_self _ _, h1, by rw [h2]⟩
      | ok o =>
        cases o with
        | none =>
          rw [resolveAll_skip rest h1 h2] at h
          obtain ⟨p, hp, hh⟩ := ih h
          exact ⟨p, List.mem_cons_of_mem c hp, hh⟩
        | some pr =>
          rw [resolveAll_provider rest h1 h2] at h
          cases hr : resolveAll env rest with
          | error u =>
            obtain ⟨p, hp, hh⟩ := ih hr
            exact ⟨p, List.mem_cons_of_mem c hp, hh⟩
          | ok l => rw [hr] at h; cases h
    · rw [resolveAll_keep rest h1] at h
      cases hr : resolveAll env rest with
      | error u =>
        obtain ⟨p, hp, hh⟩ := ih hr
        exact ⟨p, List.mem_cons_of_mem c hp, hh⟩
      | ok l => rw [hr] at h; cases h

/-- The index-refresh abort happens exactly when `apt-get update`
fails. -/
theorem install_updateFailed {env : AptEnv} {content : String}
    (h : install_deb_deps env content = .error .updateFailed) :
    env.updateOk = false := by
  unfold install_deb_deps at h
  by_cases hp : parsePkgs content = []
  · simp [hp] at h
  · by_cases hu : env.updateOk
    · exfalso
      simp only [hp, if_false, hu, not_true_eq_false] at h
      cases hr : resolveAll env (parsePkgs content) with
      | error u => simp [hr] at h
      | ok l =>
        simp only [hr] at h
        by_cases hl : l = []
        · simp [hl] at h
        · by_cases hi : env.installOk l
          · simp [hl, hi] at h
          · simp [hl, hi] at h
    · simpa using hu

/-- The batch-install abort happens exactly when a nonempty resolved
list was passed to a failing `apt-get install`. -/
theorem install_installFailed {env : AptEnv} {content : String}
    (h : install_deb_deps env content = .error .installFailed) :
    ∃ l, resolveAll env (parsePkgs content) = .ok l ∧ l ≠ [] ∧
      env.installOk l = false := by
  unfold install_deb_deps at h
  by_cases hp : parsePkgs content = []
  · simp [hp] at h
  · by_cases hu : env.updateOk
    · simp only [hp, if_false, hu, not_true_eq_false] at h
      cases hr : resolveAll env (parsePkgs content) with
      | error u => simp [hr] at h
      | ok l =>
        simp only [hr] at h
        by_cases hl : l = []
        · simp [hl] at h
        · by_cases hi : env.installOk l
          · simp [hl, hi] at h
          · exact ⟨l, rfl, hl, by simpa using hi⟩
    · simp [hp, hu] at h

/-- The `IndexError` abort comes from the resolution loop. -/
theorem install_indexError {env : AptEnv} {content : String}
    (h : install_deb_deps env content = .error .indexError) :
    resolveAll env (parsePkgs content) = .error () := by
  unfold install_deb_deps at h
  by_cases hp : parsePkgs content = []
  · simp [hp] at h
  · by_cases hu : env.updateOk
    · simp only [hp, if_false, hu, not_true_eq_false] at h
      cases hr : resolveAll env (parsePkgs content) with
      | error u => rfl
      | ok l =>
        exfalso
        simp only [hr] at h
        by_cases hl : l = []
        · simp [hl] at h
        · by_cases hi : env.installOk l
          · simp [hl, hi] at h
          · simp [hl, hi] at h
    · simp [hp, hu] at h

/-- Claim C1 (counterexample): with the second alternate `b` directly
installable and the first alternate `a` unresolvable, the claim predicts
that the line `a|b` resolves to `b`; the code instead normalizes the
line to the single candidate `a`, skips it, and installs nothing. -/
theorem C1_counterexample :
    envAlt.showOut "b" ≠ "" ∧
    parsePkgs "a|b" = ["a"] ∧
    install_deb_deps envAlt "a|b" = Except.ok AptOutcome.nothingToInstall :=
  ⟨by decide, by decide, by decide⟩

/-- Claim C1 (amended): the Dependency Installer keeps only the first
`|`-alternate of a specifier line — the normalization discards
everything after the first `|` — and tries that single candidate first
as a real package, then as a virtual package with a reverse provider; if
it resolves neither way, the line contributes nothing to the install set
and the remaining lines are processed as if it were absent.  Alternates
after the first are never tried. -/
theorem C1_only_first_alternate :
    (∀ (s t : String), '|' ∉ s.data → '(' ∉ s.data → '(' ∉ t.data →
      normalizeSpec (s ++ "|" ++ t) = pyStrip s) ∧
    (∀ (env : AptEnv) (c : String) (rest : List String), env.showOut c ≠ "" →
      resolveAll env (c :: rest) = (resolveAll env rest).map (fun t => c :: t)) ∧
    (∀ (env : AptEnv) (c pr : String) (rest : List String), env.showOut c = "" →
      parseProvider (env.showpkgOut c) = .ok (some pr) →
      resolveAll env (c :: rest) = (resolveAll env rest).map (fun t => pr :: t)) ∧
    (∀ (env : AptEnv) (c : String) (rest : List String), env.showOut c = "" →
      parseProvider (env.showpkgOut c) = .ok none →
      resolveAll env (c :: rest) = resolveAll env rest) :=
  ⟨normalizeSpec_drops_alternates,
   fun _ _ rest h1 => resolveAll_keep rest h1,
   fun _ _ _ rest h1 h2 => resolveAll_provider rest h1 h2,
   fun _ _ rest h1 h2 => resolveAll_skip rest h1 h2⟩

theorem C1_only_first_alternate_witness :
    normalizeSpec ("libfoo" ++ "|" ++ "libfoo-compat") = pyStrip "libfoo" ∧
    resolveAll envAlt ["b"] = (resolveAll envAlt []).map (fun t => "b" :: t) ∧
    resolveAll envAlt ["a"] = resolveAll envAlt [] :=
  ⟨C1_only_first_alternate.1 "libfoo" "libfoo-compat" (by decide) (by decide) (by decide),
   C1_only_first_alternate.2.1 envAlt "b" [] (by decide),
   C1_only_first_alternate.2.2.2 envAlt "a" [] (by decide) (by decide)⟩

/-- Claim C8 (counterexample): the operation can also abort fatally on
an `IndexError` raised while parsing a `Reverse Provides:` block whose
first indented line is whitespace-only — here the index refresh
succeeded and the batch install could not fail, yet the run aborts. -/
theorem C8_counterexample :
    envIdx.updateOk = true ∧
    envIdx.installOk = (fun _ => true) ∧
    install_deb_deps envIdx "pkga" = Except.error AptFatal.indexError :=
  ⟨rfl, rfl, by decide⟩

/-- Claim C8 (amended): the Dependency Installer aborts fatally only
when the package-index refresh fails, when the final batch install of a
nonempty resolved list fails, or when the provider scan of some
candidate raises `IndexError` on a whitespace-only indented line of its
`Reverse Provides:` block; a candidate that merely fails to resolve is
non-fatal and only drops its own line. -/
theorem C8_fatal_modes :
    (∀ (env : AptEnv) (content : String),
      install_deb_deps env content = .error .updateFailed → env.updateOk = false) ∧
    (∀ (env : AptEnv) (content : String),
      install_deb_deps env content = .error .installFailed →
      ∃ l, resolveAll env (parsePkgs content) = .ok l ∧ l ≠ [] ∧
        env.installOk l = false) ∧
    (∀ (env : AptEnv) (content : String),
      install_deb_deps env content = .error .indexError →
      ∃ p ∈ parsePkgs content, env.showOut p = "" ∧
        parseProvider (env.showpkgOut p) = .error ()) ∧
    (∀ (env : AptEnv) (c : String) (rest : List String), env.showOut c = "" →
      parseProvider (env.showpkgOut c) = .ok none →
      resolveAll env (c :: rest) = resolveAll env rest) :=
  ⟨fun _ _ h => install_updateFailed h,
   fun _ _ h => install_installFailed h,
   fun _ _ h => resolveAll_error (install_indexError h),
   fun _ _ rest h1 h2 => resolveAll_skip rest h1 h2⟩

theorem C8_fatal_modes_witness :
    envUpd.updateOk = false ∧
    resolveAll envUpd ["pkga"] = resolveAll envUpd [] :=
  ⟨C8_fatal_modes.1 envUpd "pkga" (by decide),
   C8_fatal_modes.2.2.2 envUpd "pkga" [] (by decide) (by decide)⟩

/-! ## Helper lemmas: Path Validator -/

/-- The directory loop processes an appended list in two runs, threading
the filesystem state and concatenating the fault lists. -/
theorem checkDirs_append (cd : Bool) (l₁ : List FsPath) :
    ∀ (fs : FS) (l₂ : List FsPath),
    checkDirs cd fs (l₁ ++ l₂) =
      ((checkDirs cd (checkDirs cd fs l₁).1 l₂).1,
       (checkDirs cd fs l₁).2 ++ (checkDirs cd (checkDirs cd fs l₁).1 l₂).2) := by
  induction l₁ with
  | nil => intro fs l₂; simp [checkDirs]
  | cons d rest ih =>
    intro fs l₂
    simp only [List.cons_append, checkDirs]
    simp only [List.append_eq]
    rw [ih]
    simp [List.append_assoc]

/-- The file loop processes an appended list in two runs, threading the
filesystem state and concatenating the fault lists. -/
theorem checkFiles_append (cf : Bool) (l₁ : List FsPath) :
    ∀ (fs : FS) (l₂ : List FsPath),
    checkFiles cf fs (l₁ ++ l₂) =
      ((checkFiles cf (checkFiles cf fs l₁).1 l₂).1,
       (checkFiles cf fs l₁).2 ++ (checkFiles cf (checkFiles cf fs l₁).1 l₂).2) := by
  induction l₁ with
  | nil => intro fs l₂; simp [checkFiles]
  | cons f rest ih =>
    intro fs l₂
    simp only [List.cons_append, checkFiles]
    simp only [List.append_eq]
    rw [ih]
    simp [List.append_assoc]

/-- The per-entry decomposition lists exactly the input directories. -/
theorem dirFaultListsP_fst (cd : Bool) (ds : List FsPath) :
    ∀ fs : FS, (dirFaultListsP cd fs ds).map Prod.fst = ds := by
  induction ds with
  | nil => intro fs; rfl
  | cons d rest ih =>
    intro fs
    simp [dirFaultListsP, ih]

/-- The per-entry decomposition lists exactly the input files. -/
theorem fileFaultListsP_fst (cf : Bool) (fps : List FsPath) :
    ∀ fs : FS, (fileFaultListsP cf fs fps).map Prod.fst = fps := by
  induction fps with
  | nil => intro fs; rfl
  | cons f rest ih =>
    intro fs
    simp [fileFaultListsP, ih]

/-- Flattening the per-entry fault lists recovers the fault list of the
directory loop. -/
theorem dirFaultListsP_flatten (cd : Bool) (ds : List FsPath) :
    ∀ fs : FS,
      ((dirFaultListsP cd fs ds).map Prod.snd).flatten = (checkDirs cd fs ds).2 := by
  induction ds with
  | nil => intro fs; rfl
  | cons d rest ih =>
    intro fs
    simp [dirFaultListsP, checkDirs, ih]

/-- Flattening the per-entry fault lists recovers the fault list of the
file loop. -/
theorem fileFaultListsP_flatten (cf : Bool) (fps : List FsPath) :
    ∀ fs : FS,
      ((fileFaultListsP cf fs fps).map Prod.snd).flatten = (checkFiles cf fs fps).2 := by
  induction fps with
  | nil => intro fs; rfl
  | cons f rest ih =>
    intro fs
    simp [fileFaultListsP, checkFiles, ih]

/-- An optional single fault is a subsequence of that fault alone. -/
theorem ifSingleton_sublist {α : Type _} (b : Bool) (a : α) :
    List.Sublist (if b then [] else [a]) [a] := by
  cases b
  · simp
  · simp

/-- The directory permission faults appear in check order. -/
theorem dirAccessFaults_sublist (fs : FS) (d : FsPath) :
    List.Sublist (dirAccessFaults fs d) [msgDirNotReadable d, msgDirNotWritable d] := by
  have h := List.Sublist.append
    (ifSingleton_sublist (fs.accessR d) (msgDirNotReadable d))
    (ifSingleton_sublist (fs.accessW d) (msgDirNotWritable d))
  simpa [dirAccessFaults] using h

/-- The file permission faults appear in check order. -/
theorem fileAccessFaults_sublist (fs : FS) (f : FsPath) :
    List.Sublist (fileAccessFaults fs f)
      [msgFileNotReadable f, msgFileNotWritable f, msgFileNotExecutable f] := by
  have h := List.Sublist.append
    (ifSingleton_sublist (fs.accessR f) (msgFileNotReadable f))
    (List.Sublist.append
      (ifSingleton_sublist (fs.accessW f) (msgFileNotWritable f))
      (ifSingleton_sublist (fs.accessX f) (msgFileNotExecutable f)))
  simpa [fileAccessFaults] using h

/-- Whatever one directory entry contributes matches `dirShape`. -/
theorem dirStep_shape (cd : Bool) (fs : FS) (d : FsPath) :
    dirShape (d, (dirStep cd fs d).2) := by
  unfold dirStep
  cases h : checkDirBody fs cd d with
  | error e => exact Or.inl ⟨e, rfl⟩
  | ok r =>
    right
    unfold checkDirBody at h
    by_cases he : fs.existsP d
    · rw [if_pos he] at h
      cases h
      exact List.Sublist.cons _ (dirAccessFaults_sublist fs d)
    · rw [if_neg he] at h
      by_cases hc : cd
      · rw [if_pos hc] at h
        cases hm : fs.mkdirParents d with
        | error e => rw [hm] at h; cases h
        | ok fs' =>
          rw [hm] at h
          cases h
          exact List.Sublist.cons _ (dirAccessFaults_sublist fs' d)
      · rw [if_neg hc] at h
        cases h
        exact List.Sublist.cons₂ _ (List.nil_sublist _)

/-- Whatever one file entry contributes matches `fileShape`. -/
theorem fileStep_shape (cf : Bool) (fs : FS) (f : FsPath) :
    fileShape (f, (fileStep cf fs f).2) := by
  have hbody₂ : ∀ fs' : FS, ∀ r, checkFileBody₂ fs' cf f = .ok r →
      List.Sublist r.2
        [msgFileNotExist f, msgFileNotReadable f, msgFileNotWritable f,
         msgFileNotExecutable f] := by
    intro fs' r h
    unfold checkFileBody₂ at h
    by_cases he : fs'.existsP f
    · rw [if_pos he] at h
      cases h
      exact List.Sublist.cons _ (fileAccessFaults_sublist fs' f)
    · rw [if_neg he] at h
      by_cases hc : cf
      · rw [if_pos hc] at h
        cases ht : fs'.touch f with
        | error e => rw [ht] at h; cases h
        | ok fs'' =>
          rw [ht] at h
          cases h
          exact List.Sublist.cons _ (fileAccessFaults_sublist fs'' f)
      · rw [if_neg hc] at h
        cases h
        exact List.Sublist.cons₂ _ (List.nil_sublist _)
  unfold fileStep
  cases h : checkFileBody fs cf f with
  | error e => exact Or.inl ⟨e, rfl⟩
  | ok r =>
    right
    unfold checkFileBody at h
    by_cases hp : fs.existsP (parentOf f)
    · rw [if_pos hp] at h
      exact List.Sublist.cons _ (hbody₂ fs r h)
    · rw [if_neg hp] at h
      by_cases hc : cf
      · rw [if_pos hc] at h
        cases hm : fs.mkdirParents (parentOf f) with
        | error e => rw [hm] at h; cases h
        | ok fs' =>
          rw [hm] at h
          exact List.Sublist.cons _ (hbody₂ fs' r h)
      · rw [if_neg hc] at h
        cases h
        exact List.Sublist.cons₂ _ (List.nil_sublist _)

/-- Every per-entry fault list of the directory loop matches
`dirShape`. -/
theorem dirFaultListsP_forall (cd : Bool) (ds : List FsPath) :
    ∀ fs : FS, List.Forall dirShape (dirFaultListsP cd fs ds) := by
  induction ds with
  | nil => intro fs; trivial
  | cons d rest ih =>
    intro fs
    simp only [dirFaultListsP]
    exact (List.forall_cons _ _ _).mpr ⟨dirStep_shape cd fs d, ih _⟩

/-- Every per-entry fault list of the file loop matches `fileShape`. -/
theorem fileFaultListsP_forall (cf : Bool) (fps : List FsPath) :
    ∀ fs : FS, List.Forall fileShape (fileFaultListsP cf fs fps) := by
  induction fps with
  | nil => intro fs; trivial
  | cons f rest ih =>
    intro fs
    simp only [fileFaultListsP]
    exact (List.forall_cons _ _ _).mpr ⟨fileStep_shape cf fs f, ih _⟩

/-- A pre-existing readable and writable directory contributes no fault
and leaves the filesystem untouched. -/
theorem checkDirs_preExist (ds : List FsPath) :
    ∀ (fs : FS) (cd : Bool),
      (∀ d ∈ ds, ∃ pm : Perms,
        fs.lookup d = some (FsEntry.dir pm) ∧ pm.r = true ∧ pm.w = true) →
      checkDirs cd fs ds = (fs, []) := by
  induction ds with
  | nil => intro fs cd _; rfl
  | cons d rest ih =>
    intro fs cd h
    obtain ⟨pm, hl, hr, hw⟩ := h d (List.mem_cons_self _ _)
    have hstep : dirStep cd fs d = (fs, []) := by
      simp [dirStep, checkDirBody, FS.existsP, hl, dirAccessFaults,
            FS.accessR, FS.accessW, FsEntry.perm, hr, hw]
    simp only [checkDirs, hstep]
    rw [ih fs cd (fun d' hd' => h d' (List.mem_cons_of_mem d hd'))]
    rfl

/-- Claim C4: the report lists the fault groups of the directories in
input order, then the fault groups of the files in input order, and each
group of each entry is either the single catch-all fault or a subsequence of
the checks of that entry in source order (existence, then read, then write,
then execute). -/
theorem C4_report_order :
    ∀ (fs : FS) (ds fps : List FsPath) (cd cf : Bool),
      ensure_paths fs ds fps cd cf =
        ((checkFiles cf (checkDirs cd fs ds).1 fps).1,
         mkRet (((dirFaultListsP cd fs ds).map Prod.snd).flatten ++
                ((fileFaultListsP cf (checkDirs cd fs ds).1 fps).map Prod.snd).flatten)) ∧
      (dirFaultListsP cd fs ds).map Prod.fst = ds ∧
      (fileFaultListsP cf (checkDirs cd fs ds).1 fps).map Prod.fst = fps ∧
      List.Forall dirShape (dirFaultListsP cd fs ds) ∧
      List.Forall fileShape (fileFaultListsP cf (checkDirs cd fs ds).1 fps) := by
  intro fs ds fps cd cf
  refine ⟨?_, dirFaultListsP_fst cd ds fs, fileFaultListsP_fst cf fps _,
         dirFaultListsP_forall cd ds fs, fileFaultListsP_forall cf fps _⟩
  rw [dirFaultListsP_flatten, fileFaultListsP_flatten]
  rfl

/-- Claim C5: the validator returns the false-like sentinel exactly when
no fault was recorded; with every directory pre-existing readable and
writable and no files it returns the sentinel, and with any fault it
returns the newline-joined report. -/
theorem C5_sentinel_iff_no_fault :
    ∀ (fs : FS) (ds fps : List FsPath) (cd cf : Bool),
      ((ensure_paths fs ds fps cd cf).2 = PyRet.bool false ↔
        (checkDirs cd fs ds).2 ++ (checkFiles cf (checkDirs cd fs ds).1 fps).2 = []) ∧
      ((checkDirs cd fs ds).2 ++ (checkFiles cf (checkDirs cd fs ds).1 fps).2 ≠ [] →
        (ensure_paths fs ds fps cd cf).2 =
          PyRet.str (String.intercalate "\n"
            ((checkDirs cd fs ds).2 ++ (checkFiles cf (checkDirs cd fs ds).1 fps).2))) ∧
      ((∀ d ∈ ds, ∃ pm : Perms,
          fs.lookup d = some (FsEntry.dir pm) ∧ pm.r = true ∧ pm.w = true) →
        fps = [] → (ensure_paths fs ds fps cd cf).2 = PyRet.bool false) := by
  intro fs ds fps cd cf
  refine ⟨?_, ?_, ?_⟩
  · show mkRet _ = PyRet.bool false ↔ _
    unfold mkRet
    by_cases hE :
        (checkDirs cd fs ds).2 ++ (checkFiles cf (checkDirs cd fs ds).1 fps).2 = []
    · simp [hE]
    · simp [hE]
  · intro hE
    show mkRet _ = _
    unfold mkRet
    simp [hE]
  · intro hpre hfps
    subst hfps
    show mkRet _ = PyRet.bool false
    rw [checkDirs_preExist ds fs cd hpre]
    rfl

theorem C5_sentinel_iff_no_fault_witness :
    (ensure_paths fsRoot [["."]] [] false false).2 = PyRet.bool false :=
  (C5_sentinel_iff_no_fault fsRoot [["."]] [] false false).2.2
    (fun d hd => by
      simp only [List.mem_singleton] at hd
      subst hd
      exact ⟨⟨true, true, true⟩, by decide, rfl, rfl⟩)
    rfl

/-- With provisioning disabled, a file whose parent is missing yields
exactly the parent fault and nothing else. -/
theorem fileStep_parent_missing {fs : FS} {f : FsPath}
    (h : fs.existsP (parentOf f) = false) :
    fileStep false fs f = (fs, [msgParentNotExist (parentOf f)]) := by
  simp [fileStep, checkFileBody, h]

/-- With provisioning disabled, a missing file under an existing parent
yields exactly the missing-file fault and nothing else. -/
theorem fileStep_file_missing {fs : FS} {f : FsPath}
    (hp : fs.existsP (parentOf f) = true) (hf : fs.existsP f = false) :
    fileStep false fs f = (fs, [msgFileNotExist f]) := by
  simp [fileStep, checkFileBody, checkFileBody₂, hp, hf]

/-- Claim C6: with provisioning disabled, a file whose parent directory
is absent contributes exactly the missing-parent fault (remaining checks
skipped), and a missing file under an existing parent contributes
exactly the missing-file fault (permission checks skipped); in both
cases the remaining entries are processed from an unchanged
filesystem. -/
theorem C6_missing_file_single_fault :
    ∀ (fs : FS) (ds fps₁ : List FsPath) (f : FsPath) (fps₂ : List FsPath) (cd : Bool),
      ((checkFiles false (checkDirs cd fs ds).1 fps₁).1.existsP (parentOf f) = false →
        ensure_paths fs ds (fps₁ ++ f :: fps₂) cd false =
          ((checkFiles false (checkFiles false (checkDirs cd fs ds).1 fps₁).1 fps₂).1,
           mkRet ((checkDirs cd fs ds).2 ++
             ((checkFiles false (checkDirs cd fs ds).1 fps₁).2 ++
              msgParentNotExist (parentOf f) ::
                (checkFiles false (checkFiles false (checkDirs cd fs ds).1 fps₁).1 fps₂).2)))) ∧
      ((checkFiles false (checkDirs cd fs ds).1 fps₁).1.existsP (parentOf f) = true →
        (checkFiles false (checkDirs cd fs ds).1 fps₁).1.existsP f = false →
        ensure_paths fs ds (fps₁ ++ f :: fps₂) cd false =
          ((checkFiles false (checkFiles false (checkDirs cd fs ds).1 fps₁).1 fps₂).1,
           mkRet ((checkDirs cd fs ds).2 ++
             ((checkFiles false (checkDirs cd fs ds).1 fps₁).2 ++
              msgFileNotExist f ::
                (checkFiles false (checkFiles false (checkDirs cd fs ds).1 fps₁).1 fps₂).2)))) := by
  intro fs ds fps₁ f fps₂ cd
  constructor
  · intro hp
    simp only [ensure_paths]
    rw [checkFiles_append]
    simp only [checkFiles]
    rw [fileStep_parent_missing hp]
    simp [List.append_assoc]
  · intro hp hf
    simp only [ensure_paths]
    rw [checkFiles_append]
    simp only [checkFiles]
    rw [fileStep_file_missing hp hf]
    simp [List.append_assoc]

theorem C6_missing_file_single_fault_witness :
    (ensure_paths fsRoot [] [["sub", "f.txt"]] false false).2 =
      PyRet.str "Parent directory does not exist: sub. Create it or set create_file=True." ∧
    (ensure_paths fsRoot [] [["g.txt"]] false false).2 =
      PyRet.str "File does not exist: g.txt. Create it or set create_file=True." := by
  have h1 :=
    (C6_missing_file_single_fault fsRoot [] [] ["sub", "f.txt"] [] false).1 (by decide)
  have h2 :=
    (C6_missing_file_single_fault fsRoot [] [] ["g.txt"] [] false).2 (by decide) (by decide)
  constructor
  · show (ensure_paths fsRoot [] ([] ++ ["sub", "f.txt"] :: []) false false).2 = _
    rw [h1]
    decide
  · show (ensure_paths fsRoot [] ([] ++ ["g.txt"] :: []) false false).2 = _
    rw [h2]
    decide

/-- Claim C3: an exception escaping the body of either loop is caught,
converted into a fault string naming the entry (and the exception text),
and the remaining entries of both lists are processed from the same
filesystem state that entered the faulty entry. -/
theorem C3_exception_isolation :
    (∀ (fs : FS) (ds₁ : List FsPath) (d : FsPath) (ds₂ fps : List FsPath)
        (cd cf : Bool) (e : String),
      checkDirBody (checkDirs cd fs ds₁).1 cd d = .error e →
      ensure_paths fs (ds₁ ++ d :: ds₂) fps cd cf =
        ((checkFiles cf (checkDirs cd (checkDirs cd fs ds₁).1 ds₂).1 fps).1,
         mkRet ((checkDirs cd fs ds₁).2 ++
           (msgDirError d e :: (checkDirs cd (checkDirs cd fs ds₁).1 ds₂).2 ++
            (checkFiles cf (checkDirs cd (checkDirs cd fs ds₁).1 ds₂).1 fps).2)))) ∧
    (∀ (fs : FS) (ds fps₁ : List FsPath) (f : FsPath) (fps₂ : List FsPath)
        (cd cf : Bool) (e : String),
      checkFileBody (checkFiles cf (checkDirs cd fs ds).1 fps₁).1 cf f = .error e →
      ensure_paths fs ds (fps₁ ++ f :: fps₂) cd cf =
        ((checkFiles cf (checkFiles cf (checkDirs cd fs ds).1 fps₁).1 fps₂).1,
         mkRet ((checkDirs cd fs ds).2 ++
           ((checkFiles cf (checkDirs cd fs ds).1 fps₁).2 ++
            msgFileError f e ::
              (checkFiles cf (checkFiles cf (checkDirs cd fs ds).1 fps₁).1 fps₂).2)))) := by
  constructor
  · intro fs ds₁ d ds₂ fps cd cf e h
    simp only [ensure_paths]
    rw [checkDirs_append]
    simp only [checkDirs]
    have hstep : dirStep cd (checkDirs cd fs ds₁).1 d =
        ((checkDirs cd fs ds₁).1, [msgDirError d e]) := by
      simp [dirStep, h]
    rw [hstep]
    simp [List.append_assoc]
  · intro fs ds fps₁ f fps₂ cd cf e h
    simp only [ensure_paths]
    rw [checkFiles_append]
    simp only [checkFiles]
    have hstep : fileStep cf (checkFiles cf (checkDirs cd fs ds).1 fps₁).1 f =
        ((checkFiles cf (checkDirs cd fs ds).1 fps₁).1, [msgFileError f e]) := by
      simp [fileStep, h]
    rw [hstep]
    simp [List.append_assoc]

theorem C3_exception_isolation_witness :
    (ensure_paths fsLocked [["locked"], ["ok2"]] [["f.txt"]] true false).2 =
      PyRet.str
        ("Error handling directory \x27locked\x27: Permission denied\nFile does not exist: f.txt. Create it or set create_file=True.") := by
  have h := C3_exception_isolation.1 fsLocked [] ["locked"] [["ok2"]] [["f.txt"]]
    true false "Permission denied" rfl
  show (ensure_paths fsLocked ([] ++ ["locked"] :: [["ok2"]]) [["f.txt"]] true false).2 = _
  rw [h]
  decide

/-- Lookup after the `mkdir(parents=True)` fold: existing entries are
untouched; the created prefixes become default directories. -/
theorem lookupA_foldl_addDir (l : List FsPath) :
    ∀ (es : List (FsPath × FsEntry)) (r : FsPath),
    lookupA (l.foldl addDirIfMissing es) r =
      match lookupA es r with
      | some e => some e
      | none => if r ∈ l then some (FsEntry.dir defaultDirPerms) else none := by
  induction l with
  | nil =>
    intro es r
    cases h : lookupA es r <;> simp [h]
  | cons q rest ih =>
    intro es r
    rw [List.foldl_cons, ih]
    by_cases hq : (lookupA es q).isSome
    · have heq : addDirIfMissing es q = es := by simp [addDirIfMissing, hq]
      rw [heq]
      cases h : lookupA es r with
      | some e => simp
      | none =>
        have hrq : r ≠ q := by
          intro he
          rw [← he, h] at hq
          simp at hq
        simp [List.mem_cons, hrq]
    · have he : lookupA es q = none := by
        cases hh : lookupA es q
        · rfl
        · rw [hh] at hq; simp at hq
      have heq : addDirIfMissing es q = (q, FsEntry.dir defaultDirPerms) :: es := by
        simp [addDirIfMissing, hq]
      rw [heq]
      by_cases hrq : q = r
      · subst hrq
        rw [show lookupA ((q, FsEntry.dir defaultDirPerms) :: es) q =
              some (FsEntry.dir defaultDirPerms) from by simp [lookupA]]
        rw [he]
        simp [List.mem_cons]
      · rw [show lookupA ((q, FsEntry.dir defaultDirPerms) :: es) r = lookupA es r
              from by simp [lookupA, hrq]]
        cases h : lookupA es r with
        | some e => simp
        | none =>
          simp only [List.mem_cons]
          have hne : ¬ r = q := fun he => hrq he.symm
          simp [hne]

/-- A nonempty path is its own longest prefix. -/
theorem self_mem_pathPrefixes {p : FsPath} (h : p ≠ []) : p ∈ pathPrefixes p := by
  unfold pathPrefixes
  have hpos : 0 < p.length := List.length_pos.mpr h
  refine List.mem_map.mpr ⟨p.length - 1, List.mem_range.mpr (by omega), ?_⟩
  have hlen : p.length - 1 + 1 = p.length := by omega
  rw [hlen, List.take_length]

/-- Running `mkdir(parents=True, exist_ok=True)` with no exception returns the
filesystem extended with the missing prefixes. -/
theorem mkdirParents_spec {fs : FS} {p : FsPath} (h : fs.mkdirErr p = none) :
    fs.mkdirParents p =
      .ok { fs with entries := (pathPrefixes p).foldl addDirIfMissing fs.entries } := by
  simp [FS.mkdirParents, h]

/-- Running `touch()` with no exception creates the missing file. -/
theorem touch_spec {fs : FS} {f : FsPath} (h : fs.touchErr f = none)
    (hmiss : lookupA fs.entries f = none) :
    fs.touch f = .ok { fs with entries := (f, FsEntry.file touchPerms) :: fs.entries } := by
  simp [FS.touch, h, hmiss]

/-- No path other than `.` is its own parent. -/
theorem parentOf_ne {f : FsPath} (h : f ≠ ["."]) : parentOf f ≠ f := by
  unfold parentOf
  by_cases hl : f.length ≤ 1
  · simp only [hl, if_true]
    exact fun he => h he.symm
  · simp only [hl, if_false]
    intro he
    have hlen : f.dropLast.length = f.length - 1 := List.length_dropLast f
    rw [he] at hlen
    omega

/-- Lookup in the filesystem produced by a successful
`mkdir(parents=True)`. -/
theorem mkdirFS_lookup (fs : FS) (p r : FsPath) :
    ({ fs with entries := (pathPrefixes p).foldl addDirIfMissing fs.entries } : FS).lookup r =
      match fs.lookup r with
      | some e => some e
      | none => if r ∈ pathPrefixes p then some (FsEntry.dir defaultDirPerms) else none :=
  lookupA_foldl_addDir (pathPrefixes p) fs.entries r

/-- A directory already present as a freshly created one passes both
permission checks and contributes nothing. -/
theorem dirStep_exists_dd {fs : FS} {d : FsPath}
    (h : fs.lookup d = some (FsEntry.dir defaultDirPerms)) (cd : Bool) :
    dirStep cd fs d = (fs, []) := by
  simp [dirStep, checkDirBody, FS.existsP, h, dirAccessFaults, FS.accessR, FS.accessW,
        FsEntry.perm, defaultDirPerms]

/-- A missing directory is created (with its parents) and passes both
permission checks. -/
theorem dirStep_create {fs : FS} {d : FsPath} (hm : fs.mkdirErr d = none)
    (hnone : fs.lookup d = none) (hne : d ≠ []) :
    dirStep true fs d =
      ({ fs with entries := (pathPrefixes d).foldl addDirIfMissing fs.entries }, []) := by
  have hlook :
      ({ fs with entries := (pathPrefixes d).foldl addDirIfMissing fs.entries } : FS).lookup d =
        some (FsEntry.dir defaultDirPerms) := by
    rw [mkdirFS_lookup, hnone]
    simp [self_mem_pathPrefixes hne]
  simp [dirStep, checkDirBody, FS.existsP, hnone, mkdirParents_spec hm,
        dirAccessFaults, FS.accessR, FS.accessW, hlook, FsEntry.perm, defaultDirPerms]

/-- Running the directory loop with `create_dir=True` over
never-before-seen (or previously created) directories: no faults, the
oracles are untouched, every listed directory ends up as a default
directory, and every other path is untouched or newly a default
directory. -/
theorem checkDirs_fresh (ds : List FsPath) :
    ∀ fs : FS,
      (∀ p, fs.mkdirErr p = none) →
      (∀ d ∈ ds, d ≠ [] ∧
        (fs.lookup d = none ∨ fs.lookup d = some (FsEntry.dir defaultDirPerms))) →
      (checkDirs true fs ds).2 = [] ∧
      (checkDirs true fs ds).1.mkdirErr = fs.mkdirErr ∧
      (checkDirs true fs ds).1.touchErr = fs.touchErr ∧
      (∀ d ∈ ds, (checkDirs true fs ds).1.lookup d = some (FsEntry.dir defaultDirPerms)) ∧
      (∀ r, (checkDirs true fs ds).1.lookup r = fs.lookup r ∨
            (checkDirs true fs ds).1.lookup r = some (FsEntry.dir defaultDirPerms)) := by
  induction ds with
  | nil =>
    intro fs hm hd
    exact ⟨rfl, rfl, rfl, by simp, fun r => Or.inl rfl⟩
  | cons d rest ih =>
    intro fs hm hd
    obtain ⟨hdne, hdl⟩ := hd d (List.mem_cons_self _ _)
    rcases hdl with hnone | hdd
    · have hstep := dirStep_create (hm d) hnone hdne
      have hlookup₁ : ∀ r,
          ({ fs with entries := (pathPrefixes d).foldl addDirIfMissing fs.entries } : FS).lookup r
            = fs.lookup r ∨
          ({ fs with entries := (pathPrefixes d).foldl addDirIfMissing fs.entries } : FS).lookup r
            = some (FsEntry.dir defaultDirPerms) := by
        intro r
        rw [mkdirFS_lookup]
        cases h : fs.lookup r with
        | some e => exact Or.inl rfl
        | none =>
          by_cases hrp : r ∈ pathPrefixes d
          · exact Or.inr (by simp [hrp])
          · exact Or.inl (by simp [hrp])
      have hlookd :
          ({ fs with entries := (pathPrefixes d).foldl addDirIfMissing fs.entries } : FS).lookup d
            = some (FsEntry.dir defaultDirPerms) := by
        rw [mkdirFS_lookup, hnone]
        simp [self_mem_pathPrefixes hdne]
      have hd₁ : ∀ d' ∈ rest, d' ≠ [] ∧
          (({ fs with entries := (pathPrefixes d).foldl addDirIfMissing fs.entries } : FS).lookup d' = none ∨
           ({ fs with entries := (pathPrefixes d).foldl addDirIfMissing fs.entries } : FS).lookup d' = some (FsEntry.dir defaultDirPerms)) := by
        intro d' hd'
        obtain ⟨h1, h2⟩ := hd d' (List.mem_cons_of_mem _ hd')
        refine ⟨h1, ?_⟩
        rcases hlookup₁ d' with h | h
        · rw [h]; exact h2
        · exact Or.inr h
      obtain ⟨i1, i2, i3, i4, i5⟩ :=
        ih { fs with entries := (pathPrefixes d).foldl addDirIfMissing fs.entries } hm hd₁
      refine ⟨?_, ?_, ?_, ?_, ?_⟩
      · simp only [checkDirs, hstep]
        simpa using i1
      · simp only [checkDirs, hstep]
        exact i2
      · simp only [checkDirs, hstep]
        exact i3
      · intro d' hd'
        simp only [checkDirs, hstep]
        rcases List.mem_cons.mp hd' with he | hm'
        · subst he
          rcases i5 d' with h | h
          · rw [h]; exact hlookd
          · exact h
        · exact i4 d' hm'
      · intro r
        simp only [checkDirs, hstep]
        rcases i5 r with h | h
        · rcases hlookup₁ r with h' | h'
          · exact Or.inl (h.trans h')
          · exact Or.inr (h.trans h')
        · exact Or.inr h
    · have hstep := dirStep_exists_dd hdd true
      obtain ⟨i1, i2, i3, i4, i5⟩ :=
        ih fs hm (fun d' hd' => hd d' (List.mem_cons_of_mem _ hd'))
      refine ⟨?_, ?_, ?_, ?_, ?_⟩
      · simp only [checkDirs, hstep]
        simpa using i1
      · simp only [checkDirs, hstep]
        exact i2
      · simp only [checkDirs, hstep]
        exact i3
      · intro d' hd'
        simp only [checkDirs, hstep]
        rcases List.mem_cons.mp hd' with he | hm'
        · subst he
          rcases i5 d' with h | h
          · rw [h]; exact hdd
          · exact h
        · exact i4 d' hm'
      · intro r
        simp only [checkDirs, hstep]
        exact i5 r

/-- With an empty file list the validator is just the directory loop. -/
theorem ensure_paths_nofiles (fs : FS) (ds : List FsPath) (cd cf : Bool) :
    ensure_paths fs ds [] cd cf =
      ((checkDirs cd fs ds).1, mkRet (checkDirs cd fs ds).2) := by
  simp [ensure_paths, checkFiles]

/-- With no directories and one file the validator is one file step. -/
theorem ensure_paths_onefile (fs : FS) (f : FsPath) (cd cf : Bool) :
    ensure_paths fs [] [f] cd cf =
      ((fileStep cf fs f).1, mkRet (fileStep cf fs f).2) := by
  simp [ensure_paths, checkDirs, checkFiles]

/-- Provisioning a missing file touches it into existence; the fresh
file is readable and writable but not executable, so the entry records
exactly the not-executable fault. -/
theorem fileStep_touch {fs : FS} {f : FsPath}
    (ht : fs.touchErr f = none) (hp : fs.existsP (parentOf f) = true)
    (hf : fs.lookup f = none) :
    fileStep true fs f =
      ({ fs with entries := (f, FsEntry.file touchPerms) :: fs.entries },
       [msgFileNotExecutable f]) := by
  have htouch := touch_spec ht hf
  have hlookf :
      ({ fs with entries := (f, FsEntry.file touchPerms) :: fs.entries } : FS).lookup f =
        some (FsEntry.file touchPerms) := by
    simp [FS.lookup, lookupA]
  have hfa :
      fileAccessFaults
        ({ fs with entries := (f, FsEntry.file touchPerms) :: fs.entries } : FS) f =
        [msgFileNotExecutable f] := by
    unfold fileAccessFaults FS.accessR FS.accessW FS.accessX
    rw [hlookf]
    rfl
  have hexf : fs.existsP f = false := by simp [FS.existsP, hf]
  simp [fileStep, checkFileBody, hp, checkFileBody₂, hexf, htouch, hfa]

/-- A file previously created by `touch` passes the read and write
checks but fails the execute check, with no state change. -/
theorem fileStep_exists_touched {fs : FS} {f : FsPath}
    (hp : fs.existsP (parentOf f) = true)
    (hf : fs.lookup f = some (FsEntry.file touchPerms)) :
    fileStep true fs f = (fs, [msgFileNotExecutable f]) := by
  have hexf : fs.existsP f = true := by simp [FS.existsP, hf]
  have hfa : fileAccessFaults fs f = [msgFileNotExecutable f] := by
    unfold fileAccessFaults FS.accessR FS.accessW FS.accessX
    rw [hf]
    rfl
  simp [fileStep, checkFileBody, hp, checkFileBody₂, hexf, hfa]

/-- Claim C2 (amended): with provisioning enabled on never-before-seen
paths, the first run creates every path and the second run performs no
creation; for directory-only inputs both runs return the success
sentinel, but a provisioned file fails the execute check on both runs
(touch creates files without the execute bit), so with file paths the
second run returns the not-executable report rather than the
sentinel. -/
theorem C2_provisioning_idempotent :
    (∀ (fs : FS) (ds : List FsPath),
      (∀ p, fs.mkdirErr p = none) →
      (∀ d ∈ ds, d ≠ [] ∧ fs.lookup d = none) →
      (ensure_paths fs ds [] true true).2 = PyRet.bool false ∧
      (∀ d ∈ ds, (ensure_paths fs ds [] true true).1.lookup d =
        some (FsEntry.dir defaultDirPerms)) ∧
      ensure_paths (ensure_paths fs ds [] true true).1 ds [] true true =
        ((ensure_paths fs ds [] true true).1, PyRet.bool false)) ∧
    (∀ (fs : FS) (f : FsPath),
      fs.touchErr f = none → fs.existsP (parentOf f) = true →
      fs.lookup f = none → f ≠ ["."] →
      (ensure_paths fs [] [f] true true).2 = PyRet.str (msgFileNotExecutable f) ∧
      (ensure_paths fs [] [f] true true).1.lookup f = some (FsEntry.file touchPerms) ∧
      ensure_paths (ensure_paths fs [] [f] true true).1 [] [f] true true =
        ((ensure_paths fs [] [f] true true).1, PyRet.str (msgFileNotExecutable f))) := by
  constructor
  · intro fs ds hm hds
    obtain ⟨i1, i2, i3, i4, i5⟩ :=
      checkDirs_fresh ds fs hm (fun d hd => ⟨(hds d hd).1, Or.inl (hds d hd).2⟩)
    have h1 : ensure_paths fs ds [] true true =
        ((checkDirs true fs ds).1, PyRet.bool false) := by
      rw [ensure_paths_nofiles, i1]
      rfl
    have h2 : checkDirs true (checkDirs true fs ds).1 ds =
        ((checkDirs true fs ds).1, []) :=
      checkDirs_preExist ds (checkDirs true fs ds).1 true
        (fun d hd => ⟨defaultDirPerms, i4 d hd, rfl, rfl⟩)
    refine ⟨by rw [h1], ?_, ?_⟩
    · intro d hd
      rw [h1]
      exact i4 d hd
    · rw [h1]
      rw [ensure_paths_nofiles, h2]
      rfl
  · intro fs f ht hp hf hne
    have hstep := fileStep_touch ht hp hf
    have h1 : ensure_paths fs [] [f] true true =
        ({ fs with entries := (f, FsEntry.file touchPerms) :: fs.entries },
         PyRet.str (msgFileNotExecutable f)) := by
      rw [ensure_paths_onefile, hstep]
      rfl
    have hfp : ¬ (f = parentOf f) := fun he => (parentOf_ne hne) he.symm
    have hp₁ :
        ({ fs with entries := (f, FsEntry.file touchPerms) :: fs.entries } : FS).existsP
          (parentOf f) = true := by
      have hp' : (lookupA fs.entries (parentOf f)).isSome = true := hp
      simp [FS.existsP, FS.lookup, lookupA, hfp]
      exact hp'
    have hf₁ :
        ({ fs with entries := (f, FsEntry.file touchPerms) :: fs.entries } : FS).lookup f =
          some (FsEntry.file touchPerms) := by
      simp [FS.lookup, lookupA]
    have hstep₂ := fileStep_exists_touched hp₁ hf₁
    have h2 : ensure_paths
        ({ fs with entries := (f, FsEntry.file touchPerms) :: fs.entries } : FS)
        [] [f] true true =
        ({ fs with entries := (f, FsEntry.file touchPerms) :: fs.entries },
         PyRet.str (msgFileNotExecutable f)) := by
      rw [ensure_paths_onefile, hstep₂]
      rfl
    refine ⟨by rw [h1], by rw [h1]; exact hf₁, by rw [h1]; exact h2⟩

/-- Claim C2 (counterexample): provisioning a never-before-seen file
path succeeds on the first run only up to the execute check, and the
second run again returns the not-executable report, not the success
sentinel. -/
theorem C2_counterexample :
    fsRoot.lookup ["n.txt"] = none ∧
    (ensure_paths (ensure_paths fsRoot [] [["n.txt"]] true true).1
        [] [["n.txt"]] true true).2 ≠ PyRet.bool false :=
  ⟨by decide, by decide⟩

theorem C2_provisioning_idempotent_witness :
    (ensure_paths fsRoot [["data"]] [] true true).2 = PyRet.bool false ∧
    (ensure_paths fsRoot [] [["n.txt"]] true true).2 =
      PyRet.str (msgFileNotExecutable ["n.txt"]) :=
  ⟨(C2_provisioning_idempotent.1 fsRoot [["data"]] (fun _ => rfl)
      (fun d hd => by
        simp only [List.mem_singleton] at hd
        subst hd
        exact ⟨by decide, by decide⟩)).1,
   (C2_provisioning_idempotent.2 fsRoot ["n.txt"] rfl (by decide) (by decide)
      (by decide)).1⟩
